import Mathlib

/-!
# Verification of the event-to-frame accumulation engine

Shallow embedding of `src/imports/EventPreProcess.py` (class `EventPreProcess`).
Timestamps and polarities are modelled as rationals (the Python code uses
floating-point values; the comparisons and counts settled here are exact and
agree with the float semantics on the inputs considered).  Pixel coordinates
are modelled as integers: the claims only concern events whose coordinates are
integral and in bounds, on which Python `int()` truncation is the identity.
Frames are total functions from (row, column, channel) to rationals; numpy
array writes become pointwise functional updates.

Fallible behaviour of the Python code is made explicit with `Except`:
`PyErr.zeroDiv` models the `ZeroDivisionError` raised by the progress-print
expressions `event_iterator * 100 / len(event_list)` (in `ConcatenateEvents`)
and `event_leading_iterator / len(event_list)` (in `EventBinning`) when the
event list is empty, `PyErr.indexErr` models the `IndexError` raised by
`time_steps[-2]` on a grid of fewer than two entries and by an out-of-range
channel index in `EventBinning`.

`ConcatenateEvents` finalizes channel 2 with
`np.divide(timestamp_matrix, counter_matrix, where=counter_matrix!=0)`
without an `out=` argument: numpy leaves the entries of the freshly allocated
output untouched (uninitialized memory) wherever the mask is false.  The
embedding makes this nondeterminism explicit through a parameter
`g : ℕ → ℤ → ℤ → ℚ` giving, for each emitted frame, the residual buffer
contents copied into channel 2 at pixels whose event counter is zero.
-/

/-- An event-camera event: column `x`, row `y`, timestamp `t`, polarity `p`
(positive means a positive event), as in the 4-column rows `[x, y, ts, pol]`
consumed by `EventPreProcess`. -/
structure Event where
  x : ℤ
  y : ℤ
  t : ℚ
  p : ℚ
deriving DecidableEq

instance : Inhabited Event := ⟨⟨0, 0, 0, 0⟩⟩

/-- Python-level errors surfaced by the embedded functions. -/
inductive PyErr where
  | zeroDiv
  | indexErr
deriving DecidableEq

/-- A multi-channel frame: row, column, channel to value. -/
def FrameC : Type := ℤ → ℤ → ℕ → ℚ

/-- A single-channel frame: row, column to value. -/
def Frame1 : Type := ℤ → ℤ → ℚ

/-- A per-pixel scalar matrix (counter / timestamp accumulator). -/
def Mat : Type := ℤ → ℤ → ℚ

/-- The all-zero multi-channel frame (`np.zeros((H, W, C))`). -/
def zeroC : FrameC := fun _ _ _ => 0

/-- The all-zero single-channel frame (`np.zeros((H, W, 1))`). -/
def zero1 : Frame1 := fun _ _ => 0

/-- The all-zero matrix (`np.zeros((H, W))`). -/
def zeroM : Mat := fun _ _ => 0

/-- Add `v` to channel `c` of pixel `(y, x)`:
`frame[y, x, c] = frame[y, x, c] + v`. -/
def addC (f : FrameC) (y x : ℤ) (c : ℕ) (v : ℚ) : FrameC :=
  fun y1 x1 c1 => if y1 = y ∧ x1 = x ∧ c1 = c then f y x c + v else f y1 x1 c1

/-- Add `v` to pixel `(y, x)` of a single-channel frame. -/
def add1 (f : Frame1) (y x : ℤ) (v : ℚ) : Frame1 :=
  fun y1 x1 => if y1 = y ∧ x1 = x then f y x + v else f y1 x1

/-- Add `v` to entry `(y, x)` of a matrix. -/
def addM (m : Mat) (y x : ℤ) (v : ℚ) : Mat :=
  fun y1 x1 => if y1 = y ∧ x1 = x then m y x + v else m y1 x1

/-! ## ConcatenateEvents (Mode A, ThreeChannelTimestepBinning)

Source: `EventPreProcess.ConcatenateEvents(event_list, time_steps, ...)`.
The inner loop `for i in range(event_iterator, len(event_list))` first sets
`event_iterator = i + 1` and only then tests `event[2] > ts`; consequently the
first boundary-exceeding event is skipped: it is neither accumulated into any
frame nor reachable by the next grid step nor part of the returned tail
`event_list[event_iterator:]`.  The embedding keeps that behaviour: on the
exceed branch the continuation receives `rest`, the list *after* the
exceeding event. -/

/-- One grid step of `ConcatenateEvents`: consume events while
`event[2] <= ts`, accumulating the polarity counts (channels 0/1), the
per-pixel event counter and the per-pixel timestamp-residual sum
`|ts - event[2] - time_step| / time_step`.  Returns `none` when the stream
exhausts (no frame is appended) and `some` of the accumulated state when an
event exceeds `ts` (that event is dropped, as in the source). -/
def ceInner (step ts : ℚ) (evs : List Event) (img : FrameC) (cm tm : Mat) :
    Option (FrameC × Mat × Mat) × List Event :=
  match evs with
  | [] => (none, [])
  | e :: rest =>
    if ts < e.t then
      (some (img, cm, tm), rest)
    else
      ceInner step ts rest
        (if 0 < e.p then addC img e.y e.x 0 1 else addC img e.y e.x 1 1)
        (addM cm e.y e.x 1)
        (addM tm e.y e.x (|ts - e.t - step| / step))
termination_by structural evs

/-- Frame finalization of `ConcatenateEvents`: channels 0 and 1 are the
accumulated counts; channel 2 is `timestamp_matrix / counter_matrix` where the
counter is nonzero and the uninitialized-buffer value `g y x` elsewhere
(`np.divide(..., where=counter_matrix!=0)` with no `out=`). -/
def ceFinalize (g : ℤ → ℤ → ℚ) (img : FrameC) (cm tm : Mat) : FrameC :=
  fun y x c =>
    if c = 2 then (if cm y x ≠ 0 then tm y x / cm y x else g y x)
    else img y x c

/-- The grid loop of `ConcatenateEvents`: `k` counts emitted frames (indexing
the uninitialized buffer contents `g` of the corresponding `np.divide` call). -/
def ceOuter (g : ℕ → ℤ → ℤ → ℚ) (step : ℚ) :
    List ℚ → List Event → ℕ → (List FrameC × List Event)
  | [], evs, _ => ([], evs)
  | ts :: rest, evs, k =>
    match ceInner step ts evs zeroC zeroM zeroM with
    | (none, rem) => ceOuter g step rest rem k
    | (some (img, cm, tm), rem) =>
      let out := ceOuter g step rest rem (k + 1)
      (ceFinalize (g k) img cm tm :: out.1, out.2)

/-- `EventPreProcess.ConcatenateEvents`.  A grid of fewer than two entries
makes `time_steps[-1] - time_steps[-2]` raise `IndexError`; an empty event
list makes the progress print `event_iterator * 100 / len(event_list)` raise
`ZeroDivisionError` on the first grid iteration (the grid is nonempty there,
having at least two entries). -/
def ConcatenateEvents (g : ℕ → ℤ → ℤ → ℚ) (event_list : List Event)
    (time_steps : List ℚ) : Except PyErr (List FrameC × List Event) :=
  if time_steps.length < 2 then .error .indexErr
  else if event_list.isEmpty then .error .zeroDiv
  else
    .ok (ceOuter g
      (time_steps.getD (time_steps.length - 1) 0 -
        time_steps.getD (time_steps.length - 2) 0)
      time_steps event_list 0)

/-- Frames of a `ConcatenateEvents` result (empty on error). -/
def ceFrames (r : Except PyErr (List FrameC × List Event)) : List FrameC :=
  match r with
  | .ok (fs, _) => fs
  | .error _ => []

/-- Remaining tail of a `ConcatenateEvents` result (`none` on error). -/
def ceTailOpt (r : Except PyErr (List FrameC × List Event)) :
    Option (List Event) :=
  match r with
  | .ok (_, tl) => some tl
  | .error _ => none

/-- Error projection of a `ConcatenateEvents` result. -/
def ceErr (r : Except PyErr (List FrameC × List Event)) : Option PyErr :=
  match r with
  | .ok _ => none
  | .error e => some e

/-- Sum of channel-0 and channel-1 entries of a frame over `[0,H) × [0,W)`. -/
def frameMass (H W : ℕ) (f : FrameC) : ℚ :=
  ((List.range H).map (fun y =>
    ((List.range W).map (fun x =>
      f (y : ℤ) (x : ℤ) 0 + f (y : ℤ) (x : ℤ) 1)).sum)).sum

/-- Conservation left-hand side: total channel-0/1 mass of all produced frames
plus the length of the returned tail (zero on error). -/
def ceMassPlusTail (H W : ℕ) (r : Except PyErr (List FrameC × List Event)) : ℚ :=
  ((ceFrames r).map (frameMass H W)).sum +
    (match ceTailOpt r with
     | some tl => (tl.length : ℚ)
     | none => 0)

/-- The all-zero uninitialized-buffer stand-in. -/
def gZero : ℕ → ℤ → ℤ → ℚ := fun _ _ _ => 0

/-- A constant nonzero uninitialized-buffer stand-in. -/
def gSeven : ℕ → ℤ → ℤ → ℚ := fun _ _ _ => 7

/-- Three unit-polarity events at pixel `(0, 0)` with timestamps 1, 2, 3. -/
def evsC1 : List Event := [⟨0, 0, 1, 1⟩, ⟨0, 0, 2, 1⟩, ⟨0, 0, 3, 1⟩]

/-- Grid `[3/2, 5/2, 10]` (ascending, three entries). -/
def gridC1 : List ℚ := [3/2, 5/2, 10]

/-! ## generateFrames (Mode B, SignedSingleChannelCount)

Source: `EventPreProcess.generateFrames(event_list, time_steps, ..., time_window)`.
Single channel; positive polarity adds `+1`, otherwise `-1`.  The optional
`time_window` gate `(time_window==None) or (event[2] > ts - time_window)`
skips too-old events entirely (cursor still advances past them).  On frame
finalization the source executes `event_image[201, 154, 0] = 0`, forcing
pixel `(201, 154)` to zero in every emitted frame.  The same
set-iterator-then-test pattern as in `ConcatenateEvents` drops the
boundary-exceeding event.  The progress print is commented out in the source,
so an empty event list raises no error here. -/

/-- The time-window gate of `generateFrames`. -/
def twOK (tw : Option ℚ) (ts : ℚ) (e : Event) : Bool :=
  match tw with
  | none => true
  | some w => decide (ts - w < e.t)

/-- `event_image[201, 154, 0] = 0` executed just before a frame is appended. -/
def setMagic (f : Frame1) : Frame1 :=
  fun y x => if y = 201 ∧ x = 154 then 0 else f y x

/-- One grid step of `generateFrames`: `none` when the stream exhausts
(no frame appended), otherwise the finalized frame and the events after the
dropped boundary event. -/
def gfInner (tw : Option ℚ) (ts : ℚ) (evs : List Event) (img : Frame1) :
    Option Frame1 × List Event :=
  match evs with
  | [] => (none, [])
  | e :: rest =>
    if twOK tw ts e then
      if ts < e.t then (some (setMagic img), rest)
      else gfInner tw ts rest (add1 img e.y e.x (if 0 < e.p then 1 else -1))
    else gfInner tw ts rest img
termination_by structural evs

/-- `EventPreProcess.generateFrames`: returns the emitted frames and the
unconsumed tail `event_list[event_iterator:]`. -/
def generateFrames (tw : Option ℚ) (event_list : List Event)
    (time_steps : List ℚ) : List Frame1 × List Event :=
  match time_steps with
  | [] => ([], event_list)
  | ts :: rest =>
    match gfInner tw ts event_list zero1 with
    | (none, rem) => generateFrames tw rem rest
    | (some fr, rem) =>
      let out := generateFrames tw rem rest
      (fr :: out.1, out.2)
termination_by structural time_steps

/-! Spec-side description of what `generateFrames` consumes per grid step
(Modelled from the spec: "consume events from the current cursor while
`event.timestamp <= ts`"), used to compare the code against the claimed
per-pixel signed count.  `gfSegs` follows the code's step boundaries: the
consumed segment of a step is the maximal prefix with timestamp at most `ts`,
a frame is emitted only when a boundary-exceeding event is found, and the
next step resumes after that (dropped) boundary event. -/

/-- Per-step consumed segments of `generateFrames` with `time_window` unset. -/
def gfSegs (event_list : List Event) (time_steps : List ℚ) : List (List Event) :=
  match time_steps with
  | [] => []
  | ts :: rest =>
    match event_list.dropWhile (fun e => decide (e.t ≤ ts)) with
    | [] => gfSegs [] rest
    | _ :: rem =>
      event_list.takeWhile (fun e => decide (e.t ≤ ts)) :: gfSegs rem rest
termination_by structural time_steps

/-- Number of positive-polarity events of a segment at pixel `(y, x)`. -/
def posCount (seg : List Event) (y x : ℤ) : ℕ :=
  seg.countP (fun e => decide (e.y = y ∧ e.x = x ∧ 0 < e.p))

/-- Number of non-positive-polarity events of a segment at pixel `(y, x)`. -/
def negCount (seg : List Event) (y x : ℤ) : ℕ :=
  seg.countP (fun e => decide (e.y = y ∧ e.x = x ∧ ¬0 < e.p))

/-! ## generateFrames_temporalROI (Mode C, EventCountBinning)

Source: `EventPreProcess.generateFrames_temporalROI`.  The grid timestamps are
never consulted; a frame is emitted when the running counter `event_bus`
reaches `event_threshold_classifier = 10000`, and both `event_bus` and the
cursor persist across grid steps.  The event at which the threshold fires is
consumed without being accumulated.  Pixel `(201, 154)` is forced to zero on
emission, as in `generateFrames`. -/

/-- Inner loop of `generateFrames_temporalROI`: returns the emitted frame (if
the threshold fired), the remaining events, and the updated `event_bus`. -/
def troiInner (thr : ℕ) (evs : List Event) (bus : ℕ) (img : Frame1) :
    Option Frame1 × List Event × ℕ :=
  match evs with
  | [] => (none, [], bus)
  | e :: rest =>
    if bus = thr then (some (setMagic img), rest, 0)
    else troiInner thr rest (bus + 1) (add1 img e.y e.x (if 0 < e.p then 1 else -1))
termination_by structural evs

/-- Grid loop of `generateFrames_temporalROI`; the grid entries only pace the
iteration (their values are unused by the source body). -/
def troiOuter (thr : ℕ) (time_steps : List ℚ) (evs : List Event) (bus : ℕ) :
    List Frame1 × List Event :=
  match time_steps with
  | [] => ([], evs)
  | _ :: rest =>
    match troiInner thr evs bus zero1 with
    | (none, rem, bus1) => troiOuter thr rest rem bus1
    | (some fr, rem, bus1) =>
      let out := troiOuter thr rest rem bus1
      (fr :: out.1, out.2)
termination_by structural time_steps

/-- `EventPreProcess.generateFrames_temporalROI` with its hard-coded
threshold `event_threshold_classifier = 10000`. -/
def generateFrames_temporalROI (event_list : List Event)
    (time_steps : List ℚ) : List Frame1 × List Event :=
  troiOuter 10000 time_steps event_list 0

/-! ## EventBinning (Mode D, MultiBinTemporalDecay)

Source: `EventPreProcess.EventBinning(event_list, time_steps, ..., n_bin,
bin_step_size)`.  Two index cursors over the fixed event list.  Each scan
loop breaks at the first exceeding event and *leaves the cursor unchanged
when it falls through without breaking* — exactly as in the source, where
`event_leading_iterator = i` / `event_trailing_iterator = i` execute only on
the break branch.  Channel indexing `event_image[..., int(channel)]` with
`channel = np.floor((ts - event[2]) / bin_step_size)` follows numpy: indices
in `[-n_bin, n_bin)` are accepted (negative ones wrap), anything else raises
`IndexError`. -/

/-- Fuel-indexed scan: test indices `i, i+1, ...` (`fuel` of them) against `p`. -/
def firstIdxGo (evs : List Event) (p : Event → Bool) : ℕ → ℕ → Option ℕ
  | 0, _ => none
  | fuel + 1, i =>
    if p (evs.getD i default) then some i
    else firstIdxGo evs p fuel (i + 1)

/-- Smallest index `i` with `i0 ≤ i < n` whose event satisfies `p`, if any
(the `for i in range(i0, n)` scan-and-break pattern of the source). -/
def firstIdxFrom (evs : List Event) (p : Event → Bool) (i0 n : ℕ) : Option ℕ :=
  firstIdxGo evs p (n - i0) i0

/-- Cursor pair of `EventBinning`: `lead` is `event_leading_iterator`,
`trail` is `event_trailing_iterator`. -/
structure EBState where
  lead : ℕ
  trail : ℕ
deriving DecidableEq

/-- The two scan loops of one `EventBinning` grid step. -/
def ebStep (evs : List Event) (nb : ℕ) (step ts : ℚ) (st : EBState) : EBState :=
  let lead1 := (firstIdxFrom evs (fun e => decide (ts < e.t)) st.lead evs.length).getD st.lead
  let trail1 := (firstIdxFrom evs (fun e => decide (ts - nb * step < e.t)) st.trail lead1).getD st.trail
  ⟨lead1, trail1⟩

/-- The per-grid-step records of an `EventBinning` run: for every grid entry,
its timestamp and the post-scan cursors.  The indices binned at that step are
exactly `[trail, lead)` of the recorded state. -/
def ebRun (evs : List Event) (nb : ℕ) (step : ℚ) (time_steps : List ℚ)
    (st : EBState) : List (ℚ × EBState) :=
  match time_steps with
  | [] => []
  | ts :: rest =>
    let st1 := ebStep evs nb step ts st
    (ts, st1) :: ebRun evs nb step rest st1
termination_by structural time_steps

/-- The binning loop of one step: add `event[3]` into channel
`int(np.floor((ts - event[2]) / bin_step_size))` for every index in
`[i, hi)`, with numpy index semantics on the channel axis of size `nb`. -/
def ebAddGo (evs : List Event) (nb : ℕ) (step ts : ℚ) :
    ℕ → ℕ → FrameC → Except PyErr FrameC
  | 0, _, img => .ok img
  | fuel + 1, i, img =>
    let e := evs.getD i default
    let ch : ℤ := ⌊(ts - e.t) / step⌋
    if -(nb : ℤ) ≤ ch ∧ ch < nb then
      ebAddGo evs nb step ts fuel (i + 1)
        (addC img e.y e.x (if ch < 0 then ((nb : ℤ) + ch).toNat else ch.toNat) e.p)
    else .error .indexErr

/-- The binning loop over indices `[i, hi)` (see `ebAddGo`). -/
def ebAdd (evs : List Event) (nb : ℕ) (step ts : ℚ) (i hi : ℕ) (img : FrameC) :
    Except PyErr FrameC :=
  ebAddGo evs nb step ts (hi - i) i img

/-- Frame of one recorded `EventBinning` step. -/
def ebFrame (evs : List Event) (nb : ℕ) (step : ℚ) (rec : ℚ × EBState) :
    Except PyErr FrameC :=
  ebAdd evs nb step rec.1 rec.2.trail rec.2.lead zeroC

/-- Build the frames of all recorded steps, stopping at the first error. -/
def ebFramesList (evs : List Event) (nb : ℕ) (step : ℚ) :
    List (ℚ × EBState) → Except PyErr (List FrameC)
  | [] => .ok []
  | rec :: rest =>
    match ebFrame evs nb step rec with
    | .error e => .error e
    | .ok f =>
      match ebFramesList evs nb step rest with
      | .error e => .error e
      | .ok fs => .ok (f :: fs)

/-- `EventPreProcess.EventBinning`.  An empty grid yields no frames; a
nonempty grid with an empty event list raises `ZeroDivisionError` in the
progress print `event_leading_iterator / len(event_list)`; otherwise one
frame per grid entry is built, stopping at the first channel `IndexError`. -/
def EventBinning (event_list : List Event) (time_steps : List ℚ) (nb : ℕ)
    (step : ℚ) : Except PyErr (List FrameC) :=
  if time_steps.isEmpty then .ok []
  else if event_list.isEmpty then .error .zeroDiv
  else ebFramesList event_list nb step (ebRun event_list nb step time_steps ⟨0, 0⟩)

/-- Error projection of an `EventBinning` result. -/
def ebErr (r : Except PyErr (List FrameC)) : Option PyErr :=
  match r with
  | .ok _ => none
  | .error e => some e

/-- Frame count of a successful `EventBinning` result (`none` on error). -/
def ebOkLen (r : Except PyErr (List FrameC)) : Option ℕ :=
  match r with
  | .ok fs => some fs.length
  | .error _ => none

/-! ## SelectFrames (FrameSelector)

Source: `EventPreProcess.SelectFrames(images_list, images_ts,
desired_timesteps, target_step)`.  For each target, scan forward from the
persistent iterator; select the first frame with `|images_ts[i] - ts| <
target_step` and advance past it; abandon the target (iterator unchanged)
when `images_ts[i] - ts > 1` or the frames are exhausted. -/

/-- Fuel-indexed forward scan of `SelectFrames`. -/
def sfScanGo (tss : List ℚ) (tol t : ℚ) : ℕ → ℕ → Option ℕ
  | 0, _ => none
  | fuel + 1, i =>
    if |tss.getD i 0 - t| < tol then some i
    else if 1 < tss.getD i 0 - t then none
    else sfScanGo tss tol t fuel (i + 1)

/-- Forward scan of `SelectFrames` over indices `[i, n)`: `some` of the first
matching index, `none` when abandoned (`images_ts[i] - ts > 1`) or exhausted. -/
def sfScan (tss : List ℚ) (n : ℕ) (tol t : ℚ) (i : ℕ) : Option ℕ :=
  sfScanGo tss tol t (n - i) i

/-- `EventPreProcess.SelectFrames` (frames represented generically; the
source appends `images_list[i]`). -/
def SelectFrames {α : Type} [Inhabited α] (images_list : List α)
    (images_ts : List ℚ) (desired_timesteps : List ℚ) (target_step : ℚ) :
    List α :=
  (desired_timesteps.foldl
    (fun (acc : List α × ℕ) t =>
      match sfScan images_ts images_list.length target_step t acc.2 with
      | some i => (acc.1 ++ [images_list.getD i default], i + 1)
      | none => acc)
    ([], 0)).1

/-! ## updateContactStatus (ContactStatusRotator)

Source: `EventPreProcess.updateContactStatus(list_of_current_contact_status,
list_of_rotations, rotation_angle)`.  The rotation matrix entries
`cos(angle*pi/180)` and `sin(angle*pi/180)` are transcendental, so the
embedding takes the pair `(c, s)` as parameters; every statement below holds
for all values of `(c, s)`, hence for every rotation angle.  The source
compares `best_rot_diff > sqrt((dx)^2 + (dy)^2)` starting from
`best_rot_diff = 100`; since square root is strictly monotone, the selection
is modelled with squared distances and the initial bound `100^2 = 10000`,
which takes the same branch at every comparison.  Reference vectors are taken
as pairs, matching the source's use of `current_rotation[0:2]` and
`rot[0]`, `rot[1]` only. -/

/-- `np.matmul(rot_mat, current_rotation[0:2])` with
`rot_mat = [[c, s], [-s, c]]`. -/
def rotVec (c s : ℚ) (v : ℚ × ℚ) : ℚ × ℚ :=
  (c * v.1 + s * v.2, -s * v.1 + c * v.2)

/-- The argmin loop over the reference table: `best` is the current best
1-based index, `bd` the current best squared distance, `i` the 1-based index
of the head of `l`. -/
def bestRotLoop (target : ℚ × ℚ) (l : List (ℚ × ℚ)) (bd : ℚ) (best i : ℕ) : ℕ :=
  match l with
  | [] => best
  | r :: rest =>
    let d := (r.1 - target.1) ^ 2 + (r.2 - target.2) ^ 2
    if d < bd then bestRotLoop target rest d i (i + 1)
    else bestRotLoop target rest bd best (i + 1)
termination_by structural l

/-- `EventPreProcess.updateContactStatus`: zero labels pass through; a
non-zero label is mapped to the 1-based index of the table vector nearest to
its rotated reference vector (first occurrence wins on ties). -/
def updateContactStatus (statuses : List ℕ) (table : List (ℚ × ℚ))
    (c s : ℚ) : List ℕ :=
  statuses.map (fun st =>
    if st = 0 then 0
    else bestRotLoop (rotVec c s (table.getD (st - 1) (0, 0))) table 10000 1 1)

/-- Accumulate the signed single-channel increments of a consumed segment
(the `+1.0` / `-1.0` writes of the `generateFrames` inner loop). -/
def gfAccum (img : Frame1) (seg : List Event) : Frame1 :=
  seg.foldl (fun f e => add1 f e.y e.x (if 0 < e.p then 1 else -1)) img

/-! # Theorems -/

/-- C1.  The conservation property fails on the code: with the sorted,
in-bounds event list `evsC1` (three events at pixel `(0,0)`, timestamps
1, 2, 3) and the ascending grid `gridC1 = [3/2, 5/2, 10]` (three entries),
`ConcatenateEvents` returns two frames of total channel-0/1 mass 1 and an
empty tail, so mass-plus-tail is 1 while the input has 3 events: the
boundary-exceeding event of each emitted frame is dropped (the source sets
`event_iterator = i + 1` before testing `event[2] > ts`). -/
theorem c1_conservation_violation :
    ceMassPlusTail 1 1 (ConcatenateEvents gZero evsC1 gridC1) = 1 ∧
    evsC1.length = 3 := by
  norm_num [ConcatenateEvents, ceOuter, ceInner, ceMassPlusTail, ceFrames, ceTailOpt,
    frameMass, evsC1, gridC1, gZero, zeroC, zeroM, addC, addM, ceFinalize,
    List.range_succ]

/-- C2.  The cursor stop rule fails on the code: with events at timestamps
1, 2, 3 and grid `[3/2, 5/2]`, the event at `t = 2` exceeds the first grid
entry, but the next grid step resumes *after* it (the second frame counts no
event at pixel `(0,0)` although `2 ≤ 5/2`), and the event at `t = 3` exceeds
the second grid entry yet the returned tail is `[]` rather than beginning
with it. -/
theorem c2_cursor_overrun :
    ceTailOpt (ConcatenateEvents gZero [⟨0,0,1,1⟩, ⟨0,0,2,1⟩, ⟨0,0,3,1⟩]
      [3/2, 5/2]) = some [] ∧
    ((ceFrames (ConcatenateEvents gZero [⟨0,0,1,1⟩, ⟨0,0,2,1⟩, ⟨0,0,3,1⟩]
      [3/2, 5/2])).getD 1 zeroC) 0 0 0 = 0 := by
  norm_num [ConcatenateEvents, ceOuter, ceInner, ceTailOpt, ceFrames, ceFinalize,
    gZero, zeroC, zeroM, addC, addM]

/-- C3.  Zero-division safety fails on the code: with events only at pixel
`(0,0)` and grid `[2, 3]`, the emitted frame's channel 2 at the zero-count
pixel `(1,0)` equals whatever the uninitialized `np.divide` output buffer
held there (modelled by the parameter `g`; here the constant 7), not 0.0:
`np.divide(..., where=counter_matrix!=0)` is called without `out=`, so
pixels with a zero counter receive unspecified values. -/
theorem c3_uninitialized_channel2 :
    ((ceFrames (ConcatenateEvents gSeven [⟨0,0,1,1⟩, ⟨0,0,10,1⟩] [2, 3])).getD 0
      zeroC) 1 0 2 = 7 := by
  norm_num [ConcatenateEvents, ceOuter, ceInner, ceFrames, ceFinalize, gSeven,
    zeroC, zeroM, addC, addM]

/-- C4.  Empty-input handling fails on the code for EventBinning
(MultiBinTemporalDecay): a zero-length event list with the nonempty grid
`[0]` raises `ZeroDivisionError` in the progress print
`event_leading_iterator / len(event_list)` instead of returning one
zero-filled frame.  The other parts of the claim hold: a zero-length grid
yields an empty frame sequence without error, and `ConcatenateEvents` with a
single-entry grid fails on the step-size inference `time_steps[-2]`. -/
theorem c4_empty_stream_zero_division :
    ebErr (EventBinning [] [0] 9 (1/20)) = some .zeroDiv ∧
    ebOkLen (EventBinning [⟨0,0,0,1⟩] [] 9 (1/20)) = some 0 ∧
    ceErr (ConcatenateEvents gZero [⟨0,0,0,1⟩] [5]) = some .indexErr := by
  norm_num [EventBinning, ConcatenateEvents, ebErr, ebOkLen, ceErr]

/-- C5 counterexample.  With frame timestamps `[0, 1/10, 1/4]`, targets
`[0, 1/5]` and tolerance `3/50` (= 0.06), `SelectFrames` does not return only
the frame at timestamp 0: the target `1/5` (= 0.2) matches the frame at
`1/4` (= 0.25), since `|1/4 - 1/5| = 1/20 < 3/50`.  (Frames are represented
by their indices 0, 1, 2.) -/
theorem c5_counterexample :
    SelectFrames [0, 1, 2] [0, 1/10, 1/4] [0, 1/5] (3/50) ≠ [0] := by
  norm_num [SelectFrames, sfScan, sfScanGo, abs_lt]

/-- C5 amended.  On the spec's example input, `SelectFrames` returns exactly
the frames at timestamps 0 and 1/4: the target 0 matches the frame at 0, and
the target 1/5 matches the frame at 1/4 (absolute difference 1/20, within
the tolerance 3/50). -/
theorem c5_amended :
    SelectFrames [0, 1, 2] [0, 1/10, 1/4] [0, 1/5] (3/50) = [0, 2] := by
  norm_num [SelectFrames, sfScan, sfScanGo, abs_lt]

/-- C6 counterexample.  With one positive event at pixel `(y,x) = (201,154)`
(timestamp 0) followed by a boundary event at `t = 2`, and grid `[1]`, the
emitted frame holds 0 at `(201,154)` although one positive and no
non-positive event at that pixel was consumed in the timestep: the source
executes `event_image[201, 154, 0] = 0` before appending every frame. -/
theorem c6_counterexample :
    ((generateFrames none [⟨154, 201, 0, 1⟩, ⟨0, 0, 2, 1⟩] [1]).1.map
      (fun f => f 201 154)) ≠
    (gfSegs [⟨154, 201, 0, 1⟩, ⟨0, 0, 2, 1⟩] [1]).map
      (fun seg => (posCount seg 201 154 : ℚ) - negCount seg 201 154) := by
  norm_num [generateFrames, gfInner, gfSegs, posCount, negCount, twOK, setMagic,
    add1, zero1, List.dropWhile, List.takeWhile, List.countP_cons, List.countP_nil]

/-- C7 counterexample.  `generateFrames_temporalROI` does not produce one
frame per grid entry: with no events and the one-entry grid `[0]`, it
produces no frame at all (a frame is emitted only when the running event
counter reaches the hard-coded threshold of 10000 before stream
exhaustion). -/
theorem c7_counterexample :
    (generateFrames_temporalROI [] [0]).1.length ≠ ([0] : List ℚ).length := by
  norm_num [generateFrames_temporalROI, troiOuter, troiInner]

/-- C8 counterexample.  With events at timestamps 0 and 2, grid `[1]`,
`n_bin = 1` and `bin_step = 1`, the event at `t = 0` lies exactly
`n_bin * bin_step` before `ts = 1` yet is *not* excluded: the trailing scan
finds no event newer than `ts - n_bin * bin_step = 0` inside the window, so
`event_trailing_iterator` keeps its stale value 0 and the binning loop
processes index 0 with channel `⌊(1 - 0)/1⌋ = 1 = n_bin`, raising
`IndexError` instead of resolving strictly below `n_bin`.  The recorded
cursors of the single grid step are `lead = 1`, `trail = 0`. -/
theorem c8_counterexample :
    ebErr (EventBinning [⟨0, 0, 0, 1⟩, ⟨0, 0, 2, 1⟩] [1] 1 1) = some .indexErr ∧
    ebRun [⟨0, 0, 0, 1⟩, ⟨0, 0, 2, 1⟩] 1 1 [1] ⟨0, 0⟩ = [(1, ⟨1, 0⟩)] := by
  norm_num [EventBinning, ebRun, ebStep, ebFrame, ebAdd, ebAddGo, ebFramesList,
    firstIdxFrom, firstIdxGo, ebErr, zeroC, addC]

/-- C9.  Resumability fails on the code: with the single event
`(0,0,t=0,p=1)` and the uniformly spaced grid `[1,2,3,4]` split into
`[1,2]` and `[3,4]`, the single full call succeeds with no frames and an
empty remainder, but resuming the second call from that empty remainder
raises `ZeroDivisionError` in the progress print
`event_iterator * 100 / len(event_list)` instead of reproducing the full
call's output. -/
theorem c9_resume_divergence :
    ceErr (ConcatenateEvents gZero [⟨0, 0, 0, 1⟩] [1, 2, 3, 4]) = none ∧
    ceTailOpt (ConcatenateEvents gZero [⟨0, 0, 0, 1⟩] [1, 2, 3, 4]) = some [] ∧
    (ceFrames (ConcatenateEvents gZero [⟨0, 0, 0, 1⟩] [1, 2, 3, 4])).length = 0 ∧
    ceErr (ConcatenateEvents gZero [] [3, 4]) = some .zeroDiv := by
  norm_num [ConcatenateEvents, ceOuter, ceInner, ceErr, ceTailOpt, ceFrames]

/-- The output of `generateFrames_temporalROI` does not depend on the grid's
timestamp values, only on the number of grid entries: the source never reads
`ts` inside the loop body. -/
theorem troiOuter_grid_irrel (thr : ℕ) :
    ∀ (g1 g2 : List ℚ) (evs : List Event) (bus : ℕ), g1.length = g2.length →
      troiOuter thr g1 evs bus = troiOuter thr g2 evs bus := by
  intro g1
  induction g1 with
  | nil =>
    intro g2 evs bus h
    cases g2 with
    | nil => rfl
    | cons b r2 => simp at h
  | cons a r1 ih =>
    intro g2 evs bus h
    cases g2 with
    | nil => simp at h
    | cons b r2 =>
      simp only [List.length_cons, Nat.succ.injEq] at h
      simp only [troiOuter]
      rcases h1 : troiInner thr evs bus zero1 with ⟨fr, rem, bus1⟩
      cases fr with
      | none => exact ih r2 rem bus1 h
      | some f => simp only [ih r2 rem bus1 h]

/-- Each grid entry contributes at most one frame in
`generateFrames_temporalROI`. -/
theorem troiOuter_len_le (thr : ℕ) :
    ∀ (g : List ℚ) (evs : List Event) (bus : ℕ),
      (troiOuter thr g evs bus).1.length ≤ g.length := by
  intro g
  induction g with
  | nil => intro evs bus; simp [troiOuter]
  | cons a r ih =>
    intro evs bus
    simp only [troiOuter]
    rcases h1 : troiInner thr evs bus zero1 with ⟨fr, rem, bus1⟩
    cases fr with
    | none => exact Nat.le_succ_of_le (ih rem bus1)
    | some f =>
      simpa using Nat.succ_le_succ (ih rem bus1)

/-- C7 amended.  `generateFrames_temporalROI` produces *at most* one frame
per grid entry — exactly one for each grid entry at which the running
event-count threshold is reached before stream exhaustion — and the binning
is governed by the fixed event-count threshold rather than the grid's
timestamps: two grids of equal length yield identical output regardless of
their timestamp values. -/
theorem c7_amended (evs : List Event) (g1 g2 : List ℚ)
    (h : g1.length = g2.length) :
    generateFrames_temporalROI evs g1 = generateFrames_temporalROI evs g2 ∧
    (generateFrames_temporalROI evs g1).1.length ≤ g1.length := by
  refine ⟨?_, ?_⟩
  · exact troiOuter_grid_irrel 10000 g1 g2 evs 0 h
  · exact troiOuter_len_le 10000 g1 evs 0

/-- C7 witness: the amended claim at a concrete input (grids `[0]` and `[7]`
of equal length). -/
theorem c7_amended_witness :
    generateFrames_temporalROI [⟨0, 0, 0, 1⟩] [0] =
      generateFrames_temporalROI [⟨0, 0, 0, 1⟩] [7] ∧
    (generateFrames_temporalROI [⟨0, 0, 0, 1⟩] [0]).1.length ≤
      ([0] : List ℚ).length :=
  c7_amended [⟨0, 0, 0, 1⟩] [0] [7] (by norm_num)

/-- The argmin loop of `updateContactStatus` returns either its incoming
best index or the 1-based position of some scanned table entry. -/
theorem bestRotLoop_range (tg : ℚ × ℚ) :
    ∀ (l : List (ℚ × ℚ)) (bd : ℚ) (best i : ℕ),
      bestRotLoop tg l bd best i = best ∨
      (i ≤ bestRotLoop tg l bd best i ∧ bestRotLoop tg l bd best i < i + l.length) := by
  intro l
  induction l with
  | nil => intro bd best i; left; rfl
  | cons r rest ih =>
    intro bd best i
    simp only [bestRotLoop]
    by_cases hd : (r.1 - tg.1) ^ 2 + (r.2 - tg.2) ^ 2 < bd
    · rw [if_pos hd]
      rcases ih ((r.1 - tg.1) ^ 2 + (r.2 - tg.2) ^ 2) i (i + 1) with h | ⟨h1, h2⟩
      · right; rw [h]; simp
      · right
        exact ⟨Nat.le_of_succ_le h1, by simpa [Nat.add_comm, Nat.add_left_comm] using h2⟩
    · rw [if_neg hd]
      rcases ih bd best (i + 1) with h | ⟨h1, h2⟩
      · left; exact h
      · right
        exact ⟨Nat.le_of_succ_le h1, by simpa [Nat.add_comm, Nat.add_left_comm] using h2⟩

/-- C10.  For every reference table with at least one vector, every rotation
matrix (hence every rotation angle), and every label list whose non-zero
labels index into the table, `updateContactStatus` returns a list of the
same length in which an output is 0 exactly where the input is 0, and every
other output lies between 1 and the table length inclusive. -/
theorem c10_contact_label_invariant (table : List (ℚ × ℚ)) (c s : ℚ)
    (statuses : List ℕ) (hne : table ≠ [])
    (_hidx : ∀ st ∈ statuses, st ≠ 0 → 1 ≤ st ∧ st ≤ table.length) :
    (updateContactStatus statuses table c s).length = statuses.length ∧
    List.Forall₂ (fun st o => (st = 0 ↔ o = 0) ∧
      (st ≠ 0 → 1 ≤ o ∧ o ≤ table.length)) statuses
      (updateContactStatus statuses table c s) := by
  have hlen : 1 ≤ table.length := by
    cases table with
    | nil => exact absurd rfl hne
    | cons a l => simp
  constructor
  · simp [updateContactStatus]
  · rw [updateContactStatus, List.forall₂_map_right_iff, List.forall₂_same]
    intro st _hmem
    by_cases h0 : st = 0
    · simp [h0]
    · rw [if_neg h0]
      have hbest := bestRotLoop_range (rotVec c s (table.getD (st - 1) (0, 0)))
        table 10000 1 1
      have hrange : 1 ≤ bestRotLoop (rotVec c s (table.getD (st - 1) (0, 0)))
          table 10000 1 1 ∧
          bestRotLoop (rotVec c s (table.getD (st - 1) (0, 0))) table 10000 1 1 ≤
            table.length := by
        rcases hbest with h | ⟨h1, h2⟩
        · rw [h]; exact ⟨le_refl 1, hlen⟩
        · exact ⟨h1, by omega⟩
      refine ⟨?_, fun _ => hrange⟩
      constructor
      · intro h; exact absurd h h0
      · intro h; omega

/-- C10 witness: the invariant at a concrete input (table `[(1,0)]`, labels
`[0, 1]`, rotation matrix entries `c = 0`, `s = 1`). -/
theorem c10_witness :
    ([(1, 0)] : List (ℚ × ℚ)) ≠ [] ∧
    ((updateContactStatus [0, 1] [(1, 0)] 0 1).length = ([0, 1] : List ℕ).length ∧
    List.Forall₂ (fun st o => (st = 0 ↔ o = 0) ∧
      (st ≠ 0 → 1 ≤ o ∧ o ≤ ([(1, 0)] : List (ℚ × ℚ)).length)) [0, 1]
      (updateContactStatus [0, 1] [(1, 0)] 0 1)) :=
  ⟨by simp, c10_contact_label_invariant [(1, 0)] 0 1 [0, 1] (by simp)
    (by decide)⟩

/-- Pointwise value of the signed-count accumulation over a segment: starting
image plus positive count minus non-positive count at the pixel. -/
theorem gfAccum_apply (y x : ℤ) :
    ∀ (seg : List Event) (img : Frame1),
      gfAccum img seg y x = img y x + ((posCount seg y x : ℚ) - negCount seg y x) := by
  intro seg
  induction seg with
  | nil => intro img; simp [gfAccum, posCount, negCount]
  | cons e rest ih =>
    intro img
    have hstep : gfAccum img (e :: rest) =
        gfAccum (add1 img e.y e.x (if 0 < e.p then 1 else -1)) rest := rfl
    rw [hstep, ih]
    by_cases hme : y = e.y ∧ x = e.x
    · obtain ⟨hy, hx⟩ := hme
      subst hy; subst hx
      by_cases hp : 0 < e.p
      · simp [add1, posCount, negCount, List.countP_cons, hp]
        ring
      · have hp2 : e.p ≤ 0 := not_lt.mp hp
        simp [add1, posCount, negCount, List.countP_cons, hp, hp2]
        ring
    · have h1 : ¬(e.y = y ∧ e.x = x ∧ 0 < e.p) := by
        rintro ⟨ha, hb, _⟩; exact hme ⟨ha.symm, hb.symm⟩
      have h2 : ¬(e.y = y ∧ e.x = x ∧ ¬0 < e.p) := by
        rintro ⟨ha, hb, _⟩; exact hme ⟨ha.symm, hb.symm⟩
      simp [add1, hme, posCount, negCount, List.countP_cons, h1, h2]
      exact fun ha hb => absurd ⟨ha.symm, hb.symm⟩ hme

/-- With `time_window` unset, one `generateFrames` step consumes exactly the
maximal prefix of events with timestamp at most `ts`; it emits a frame
(the accumulated counts with the forced write at pixel `(201,154)`) precisely
when a boundary-exceeding event exists, and the continuation starts after
that dropped boundary event. -/
theorem gfInner_none_eq (ts : ℚ) :
    ∀ (evs : List Event) (img : Frame1),
      gfInner none ts evs img =
        ((if evs.dropWhile (fun e => decide (e.t ≤ ts)) = [] then none
          else some (setMagic (gfAccum img (evs.takeWhile (fun e => decide (e.t ≤ ts)))))),
         (evs.dropWhile (fun e => decide (e.t ≤ ts))).tail) := by
  intro evs
  induction evs with
  | nil => intro img; simp [gfInner, List.dropWhile, List.takeWhile]
  | cons e rest ih =>
    intro img
    by_cases ht : ts < e.t
    · have hle : ¬e.t ≤ ts := not_le.mpr ht
      simp [gfInner, twOK, ht, hle, List.dropWhile, List.takeWhile, gfAccum]
    · have hle : e.t ≤ ts := not_lt.mp ht
      have haccum : ∀ seg, gfAccum img (e :: seg) =
          gfAccum (add1 img e.y e.x (if 0 < e.p then 1 else -1)) seg := fun _ => rfl
      simp only [gfInner, twOK, if_neg ht, List.dropWhile, List.takeWhile, hle,
        decide_True, if_true]
      rw [ih]
      simp [haccum]

/-- C6 amended.  With `time_window` unset, every frame emitted by
`generateFrames` carries, at every pixel other than `(201,154)`, exactly the
number of positive-polarity events at that pixel consumed in that timestep
minus the number of non-positive-polarity events there (the consumed
segments being those of the code's cursor steps, `gfSegs`); the claimed
uniformity over all pixels fails only at `(201,154)`, which the source
forcibly zeroes at every frame finalization. -/
theorem c6_amended (evs : List Event) (grid : List ℚ) (y x : ℤ)
    (hpix : ¬(y = 201 ∧ x = 154)) :
    ((generateFrames none evs grid).1).map (fun f => f y x) =
      (gfSegs evs grid).map
        (fun seg => (posCount seg y x : ℚ) - negCount seg y x) := by
  induction grid generalizing evs with
  | nil => simp [generateFrames, gfSegs]
  | cons ts rest ih =>
    simp only [generateFrames, gfSegs, gfInner_none_eq]
    rcases hne : evs.dropWhile (fun e => decide (e.t ≤ ts)) with _ | ⟨d, rem⟩
    · rw [hne]
      simp only [if_pos rfl, List.tail_nil]
      exact ih []
    · rw [hne]
      simp only [if_neg (List.cons_ne_nil d rem), List.tail_cons, List.map_cons]
      refine congrArg₂ _ ?_ (ih rem)
      show setMagic (gfAccum zero1 (evs.takeWhile (fun e => decide (e.t ≤ ts)))) y x = _
      rw [setMagic, if_neg hpix, gfAccum_apply]
      simp [zero1]

/-- C6 witness: the amended claim at a concrete input (two events, grid
`[1]`, pixel `(0, 0)`). -/
theorem c6_amended_witness :
    ((generateFrames none [⟨0, 0, 0, 1⟩, ⟨0, 0, 2, 1⟩] [1]).1).map
      (fun f => f 0 0) =
    (gfSegs [⟨0, 0, 0, 1⟩, ⟨0, 0, 2, 1⟩] [1]).map
      (fun seg => (posCount seg 0 0 : ℚ) - negCount seg 0 0) :=
  c6_amended [⟨0, 0, 0, 1⟩, ⟨0, 0, 2, 1⟩] [1] 0 0 (by decide)

/-- A successful fuel-indexed scan returns the first qualifying index at or
after its start. -/
theorem firstIdxGo_some_spec (evs : List Event) (p : Event → Bool) :
    ∀ (fuel i j : ℕ), firstIdxGo evs p fuel i = some j →
      i ≤ j ∧ j < i + fuel ∧ p (evs.getD j default) = true ∧
        ∀ k, i ≤ k → k < j → p (evs.getD k default) = false := by
  intro fuel
  induction fuel with
  | zero => intro i j h; simp [firstIdxGo] at h
  | succ m ih =>
    intro i j h
    rw [firstIdxGo] at h
    by_cases hp : p (evs.getD i default) = true
    · rw [if_pos hp] at h
      obtain rfl : i = j := Option.some.inj h
      exact ⟨le_refl i, by omega, hp, fun k h1 h2 => absurd h1 (by omega)⟩
    · rw [if_neg hp] at h
      obtain ⟨h1, h2, h3, h4⟩ := ih (i + 1) j h
      refine ⟨by omega, by omega, h3, fun k hk1 hk2 => ?_⟩
      rcases Nat.eq_or_lt_of_le hk1 with rfl | hk3
      · exact Bool.not_eq_true _ ▸ eq_false_of_ne_true hp
      · exact h4 k hk3 hk2

/-- A successful `firstIdxFrom` scan over `[i0, n)` returns the first
qualifying index, with all scanned prior indices failing the predicate. -/
theorem firstIdxFrom_some_spec (evs : List Event) (p : Event → Bool)
    (i0 n j : ℕ) (h : firstIdxFrom evs p i0 n = some j) :
    i0 ≤ j ∧ j < n ∧ p (evs.getD j default) = true ∧
      ∀ k, i0 ≤ k → k < j → p (evs.getD k default) = false := by
  obtain ⟨h1, h2, h3, h4⟩ := firstIdxGo_some_spec evs p (n - i0) i0 j h
  exact ⟨h1, by omega, h3, h4⟩

/-- Timestamps of a sorted event list are monotone in the index. -/
theorem sorted_getD_le (evs : List Event)
    (hs : List.Pairwise (fun a b : Event => a.t ≤ b.t) evs)
    (i j : ℕ) (hij : i ≤ j) (hj : j < evs.length) :
    (evs.getD i default).t ≤ (evs.getD j default).t := by
  rcases Nat.eq_or_lt_of_le hij with rfl | hlt
  · exact le_refl _
  · have hi : i < evs.length := lt_trans hlt hj
    rw [List.getD_eq_getElem evs default hi, List.getD_eq_getElem evs default hj]
    exact List.pairwise_iff_get.mp hs ⟨i, hi⟩ ⟨j, hj⟩ hlt

/-- The leading scan of one `EventBinning` step never moves backwards, stays
within bounds, and every index below the new leading cursor holds an event
with timestamp at most `ts`. -/
theorem ebStep_lead_spec (evs : List Event) (nb : ℕ) (step ts : ℚ)
    (st : EBState) (hlead : st.lead ≤ evs.length)
    (hbound : ∀ i, i < st.lead → (evs.getD i default).t ≤ ts) :
    st.lead ≤ (ebStep evs nb step ts st).lead ∧
    (ebStep evs nb step ts st).lead ≤ evs.length ∧
    (∀ i, i < (ebStep evs nb step ts st).lead → (evs.getD i default).t ≤ ts) := by
  have hL : (ebStep evs nb step ts st).lead =
      (firstIdxFrom evs (fun e => decide (ts < e.t)) st.lead evs.length).getD st.lead := rfl
  rcases hf : firstIdxFrom evs (fun e => decide (ts < e.t)) st.lead evs.length with _ | j
  · rw [hL, hf, Option.getD_none]
    exact ⟨le_refl _, hlead, hbound⟩
  · obtain ⟨h1, h2, _h3, h4⟩ := firstIdxFrom_some_spec evs _ st.lead evs.length j hf
    rw [hL, hf, Option.getD_some]
    refine ⟨h1, le_of_lt h2, fun i hi => ?_⟩
    by_cases hcase : i < st.lead
    · exact hbound i hcase
    · have := h4 i (not_lt.mp hcase) hi
      simpa using this

/-- Invariant along an `EventBinning` run over a sorted stream and an
ascending grid: every recorded leading cursor is in bounds, and every event
below it has timestamp at most that step's grid timestamp. -/
theorem ebRun_inv (evs : List Event) (nb : ℕ) (step : ℚ)
    (_hs : List.Pairwise (fun a b : Event => a.t ≤ b.t) evs) :
    ∀ (grid : List ℚ) (st : EBState),
      List.Pairwise (fun a b : ℚ => a ≤ b) grid →
      st.lead ≤ evs.length →
      (∀ ts1 ∈ grid, ∀ i, i < st.lead → (evs.getD i default).t ≤ ts1) →
      ∀ rec ∈ ebRun evs nb step grid st,
        rec.2.lead ≤ evs.length ∧
        ∀ i, i < rec.2.lead → (evs.getD i default).t ≤ rec.1 := by
  intro grid
  induction grid with
  | nil => intro st _ _ _ rec hrec; simp [ebRun] at hrec
  | cons ts rest ih =>
    intro st hg hlead hbound rec hrec
    have hstep1 := ebStep_lead_spec evs nb step ts st hlead
      (hbound ts (List.mem_cons_self ts rest))
    rw [ebRun] at hrec
    rcases List.mem_cons.mp hrec with rfl | htail
    · exact ⟨hstep1.2.1, hstep1.2.2⟩
    · refine ih (ebStep evs nb step ts st) (List.Pairwise.of_cons hg) hstep1.2.1
        (fun ts1 hts1 i hi => ?_) rec htail
      have h1 : (evs.getD i default).t ≤ ts := hstep1.2.2 i hi
      have h2 : ts ≤ ts1 := (List.pairwise_cons.mp hg).1 ts1 hts1
      exact le_trans h1 h2

/-- The channel-binning loop succeeds when every scanned index resolves to a
channel accepted by numpy indexing. -/
theorem ebAddGo_ok (evs : List Event) (nb : ℕ) (step ts : ℚ) :
    ∀ (fuel i : ℕ) (img : FrameC),
      (∀ k, i ≤ k → k < i + fuel →
        -(nb : ℤ) ≤ ⌊(ts - (evs.getD k default).t) / step⌋ ∧
          ⌊(ts - (evs.getD k default).t) / step⌋ < nb) →
      ∃ f, ebAddGo evs nb step ts fuel i img = .ok f := by
  intro fuel
  induction fuel with
  | zero => intro i img _; exact ⟨img, rfl⟩
  | succ m ih =>
    intro i img h
    rw [ebAddGo]
    have hk := h i (le_refl i) (by omega)
    simp only [if_pos hk]
    exact ih (i + 1) _ (fun k h1 h2 => h k (by omega) (by omega))

/-- Frame construction over all recorded steps succeeds when every binned
index of every step resolves to an accepted channel. -/
theorem ebFramesList_ok (evs : List Event) (nb : ℕ) (step : ℚ) :
    ∀ recs : List (ℚ × EBState),
      (∀ rec ∈ recs, ∀ k, rec.2.trail ≤ k → k < rec.2.lead →
        -(nb : ℤ) ≤ ⌊(rec.1 - (evs.getD k default).t) / step⌋ ∧
          ⌊(rec.1 - (evs.getD k default).t) / step⌋ < nb) →
      ∃ fs, ebFramesList evs nb step recs = .ok fs := by
  intro recs
  induction recs with
  | nil => intro _; exact ⟨[], rfl⟩
  | cons rec rest ih =>
    intro h
    obtain ⟨f, hf⟩ := ebAddGo_ok evs nb step rec.1 (rec.2.lead - rec.2.trail)
      rec.2.trail zeroC
      (fun k h1 h2 => h rec (List.mem_cons_self rec rest) k h1 (by omega))
    obtain ⟨fs, hfs⟩ := ih (fun r hr => h r (List.mem_cons_of_mem rec hr))
    refine ⟨f :: fs, ?_⟩
    rw [ebFramesList]
    have hframe : ebFrame evs nb step rec = .ok f := hf
    rw [hframe, hfs]

/-- C8 amended.  For every sorted event list, ascending grid, positive
`bin_step` and positive `n_bins`, *provided* at every grid step the event at
the trailing cursor is strictly newer than `ts - n_bins * bin_step` whenever
the binned window is nonempty (which is what the trailing scan establishes
when it stops by its break), every binned event is strictly newer than
`ts - n_bins * bin_step` — so an event exactly `n_bins * bin_step` before
`ts` is excluded — and resolves to a channel in `[0, n_bins)`; consequently
`EventBinning` raises no channel `IndexError`.  (Without the proviso the
trailing cursor can be left stale and the claim fails; see the
counterexample.) -/
theorem c8_amended (evs : List Event) (grid : List ℚ) (nb : ℕ) (step : ℚ)
    (hs : List.Pairwise (fun a b : Event => a.t ≤ b.t) evs)
    (hg : List.Pairwise (fun a b : ℚ => a ≤ b) grid)
    (hstep : 0 < step) (_hnb : 0 < nb)
    (htrail : ∀ rec ∈ ebRun evs nb step grid ⟨0, 0⟩,
      rec.2.trail < rec.2.lead →
        rec.1 - nb * step < (evs.getD rec.2.trail default).t) :
    (∀ rec ∈ ebRun evs nb step grid ⟨0, 0⟩, ∀ i, rec.2.trail ≤ i → i < rec.2.lead →
      (rec.1 - nb * step < (evs.getD i default).t ∧
       (evs.getD i default).t ≤ rec.1 ∧
       (evs.getD i default).t ≠ rec.1 - nb * step ∧
       0 ≤ ⌊(rec.1 - (evs.getD i default).t) / step⌋ ∧
       ⌊(rec.1 - (evs.getD i default).t) / step⌋ < nb)) ∧
    ebErr (EventBinning evs grid nb step) ≠ some PyErr.indexErr := by
  have hmain : ∀ rec ∈ ebRun evs nb step grid ⟨0, 0⟩, ∀ i, rec.2.trail ≤ i →
      i < rec.2.lead →
      (rec.1 - nb * step < (evs.getD i default).t ∧
       (evs.getD i default).t ≤ rec.1 ∧
       (evs.getD i default).t ≠ rec.1 - nb * step ∧
       0 ≤ ⌊(rec.1 - (evs.getD i default).t) / step⌋ ∧
       ⌊(rec.1 - (evs.getD i default).t) / step⌋ < nb) := by
    intro rec hrec i h1 h2
    have hinv := ebRun_inv evs nb step hs grid ⟨0, 0⟩ hg (Nat.zero_le _)
      (fun ts1 _ i1 hi1 => absurd hi1 (Nat.not_lt_zero i1)) rec hrec
    have hthr : rec.1 - nb * step < (evs.getD rec.2.trail default).t :=
      htrail rec hrec (lt_of_le_of_lt h1 h2)
    have hmono : (evs.getD rec.2.trail default).t ≤ (evs.getD i default).t :=
      sorted_getD_le evs hs rec.2.trail i h1 (lt_of_lt_of_le h2 hinv.1)
    have hgt : rec.1 - nb * step < (evs.getD i default).t := lt_of_lt_of_le hthr hmono
    have hle : (evs.getD i default).t ≤ rec.1 := hinv.2 i h2
    refine ⟨hgt, hle, ne_of_gt hgt, ?_, ?_⟩
    · exact Int.floor_nonneg.mpr (div_nonneg (by linarith) (le_of_lt hstep))
    · rw [Int.floor_lt]
      rw [div_lt_iff₀ hstep]
      push_cast
      linarith
  refine ⟨hmain, ?_⟩
  rw [EventBinning]
  by_cases hgr : grid.isEmpty
  · rw [if_pos hgr]
    simp [ebErr]
  · rw [if_neg hgr]
    by_cases hev : evs.isEmpty
    · rw [if_pos hev]
      simp [ebErr]
    · rw [if_neg hev]
      obtain ⟨fs, hfs⟩ := ebFramesList_ok evs nb step
        (ebRun evs nb step grid ⟨0, 0⟩)
        (fun rec hrec k hk1 hk2 => by
          obtain ⟨_, _, _, h4, h5⟩ := hmain rec hrec k hk1 hk2
          exact ⟨by omega, h5⟩)
      rw [hfs]
      simp [ebErr]

/-- C8 witness: the amended claim at a concrete input (events at timestamps
1 and 3 at pixel `(0,0)`, grid `[2]`, two bins of width 1; the trailing scan
stops at index 0 whose event is strictly inside the window). -/
theorem c8_amended_witness :
    ((∀ rec ∈ ebRun [⟨0, 0, 1, 1⟩, ⟨0, 0, 3, 1⟩] 2 1 [2] ⟨0, 0⟩,
      ∀ i, rec.2.trail ≤ i → i < rec.2.lead →
      (rec.1 - 2 * 1 < (([⟨0, 0, 1, 1⟩, ⟨0, 0, 3, 1⟩] : List Event).getD i default).t ∧
       (([⟨0, 0, 1, 1⟩, ⟨0, 0, 3, 1⟩] : List Event).getD i default).t ≤ rec.1 ∧
       (([⟨0, 0, 1, 1⟩, ⟨0, 0, 3, 1⟩] : List Event).getD i default).t ≠ rec.1 - 2 * 1 ∧
       0 ≤ ⌊(rec.1 - (([⟨0, 0, 1, 1⟩, ⟨0, 0, 3, 1⟩] : List Event).getD i default).t) / 1⌋ ∧
       ⌊(rec.1 - (([⟨0, 0, 1, 1⟩, ⟨0, 0, 3, 1⟩] : List Event).getD i default).t) / 1⌋ < 2)) ∧
    ebErr (EventBinning [⟨0, 0, 1, 1⟩, ⟨0, 0, 3, 1⟩] [2] 2 1) ≠ some PyErr.indexErr) :=
  c8_amended [⟨0, 0, 1, 1⟩, ⟨0, 0, 3, 1⟩] [2] 2 1
    (by norm_num [List.pairwise_cons])
    (by norm_num [List.pairwise_cons])
    (by norm_num) (by norm_num)
    (by
      intro rec hrec
      norm_num [ebRun, ebStep, firstIdxFrom, firstIdxGo] at hrec
      rw [hrec]
      norm_num)
